import Mathlib

set_option maxHeartbeats 1000000
set_option maxRecDepth 4000

/- Shallow embedding of the TMSi SAGA real-time plotter core, from
   src/Python/plotters/plotter.py and src/Python/plotters/impedance_plotter.py.

   The window buffer of RealTimePlot and SamplingThread is modelled per
   channel: the numpy array window_buffer[channel][pos] acts on every
   channel row uniformly, so a row is a function from ring positions to
   values, where none stands for the np.nan gap sentinel marking
   positions never written or whited out.  Sample values are carried as
   integers; every index computation is exact as in the source. -/

/-- A channel row of the ring buffer: ring position to stored value;
none is the nan sentinel that np.nan denotes in the source. -/
def Buf : Type := Nat → Option Int

/-- Pointwise update of a channel row, one numpy element assignment. -/
def upd (b : Buf) (i : Nat) (v : Option Int) : Buf :=
  fun j => if j = i then v else b j

/-- State of the plotter window buffer: the fields of RealTimePlot.initUI
that SamplingThread copies, namely sample_rate, the ring length in
seconds (_buffer_size, 10 in the source), the window length in seconds
(window_size), the ring buffer row and samples_seen. -/
structure WindowBuffer where
  sampleRate : Nat
  bufferSize : Nat
  windowSize : Nat
  buffer : Buf
  samplesSeen : Nat

/-- Ring capacity in samples: the source allocates
int(np.ceil(sample_rate * _buffer_size)) slots and reduces every index
modulo sample_rate * _buffer_size; for a natural sample rate both equal
sampleRate * bufferSize. -/
def bufferSamples (st : WindowBuffer) : Nat := st.sampleRate * st.bufferSize

/-- Window length in samples, window_size * sample_rate. -/
def windowSamples (st : WindowBuffer) : Nat := st.windowSize * st.sampleRate

/-- White out width int(np.floor(window_size * sample_rate * 0.04)); for
natural arguments the floor is the natural division by 25, written as
multiplication by 4 then division by 100. -/
def whiteOut (st : WindowBuffer) : Nat := st.windowSize * st.sampleRate * 4 / 100

/-- The block write step of SamplingThread.update_samples on one channel
row: plot_indices = (samples_seen + arange(k + white_out)) modulo
(sample_rate * _buffer_size); window_buffer[:, plot_indices[:-white_out]]
= samples; window_buffer[:, plot_indices[-white_out:]] = np.nan;
samples_seen += k.  The numpy assignments are element by element, later
elements overwriting earlier ones.  The two slices are embedded for the
positive white_out case, the only case the plotter reaches: white_out = 0
needs window_size * sample_rate below 25 and the first numpy assignment
would raise a shape mismatch there, so the theorems below assume a
positive white out width. -/
def writeBlock (st : WindowBuffer) (blk : List Int) : WindowBuffer :=
  let k := blk.length
  let w := whiteOut st
  let B := bufferSamples st
  let plotIdx : Nat → Nat := fun i => (st.samplesSeen + i) % B
  let dataWritten := (List.range k).foldl
    (fun acc i => upd acc (plotIdx i) (some (blk.getD i 0))) st.buffer
  let whited := (List.range w).foldl
    (fun acc i => upd acc (plotIdx (k + i)) none) dataWritten
  { st with buffer := whited, samplesSeen := st.samplesSeen + k }

/-- Selection of every d-th element, the payload of the Python extended
slice a[::d] for positive d. -/
def strideSel (l : List (Option Int)) (d : Nat) : List (Option Int) :=
  l.enum.filterMap fun p => if p.1 % d = 0 then some p.2 else none

/-- Python extended slice a[::d], the downsampling step
plot_data[:, ::self._downsampling_factor]: every d-th element for
positive d, and none for d = 0, where Python raises ValueError because a
slice step cannot be zero. -/
def pyStride (l : List (Option Int)) (d : Nat) : Option (List (Option Int)) :=
  if d = 0 then none else some (strideSel l d)

/-- The frame derivation of SamplingThread.update_samples on one channel
row: indices = arange(samples_seen + white_out - window_size * sample_rate,
samples_seen + white_out); scroll_idx = indices modulo
(sample_rate * _buffer_size); split_idx = np.where(indices modulo
(sample_rate * window_size) == 1)[0][0]; plot_data =
hstack((buffer[:, scroll_idx[split_idx:]], buffer[:, scroll_idx[:split_idx]]))
strided by the downsampling factor.  A missing split index, where
np.where returns an empty hit set and indexing it raises IndexError, and
a zero stride, where the slice raises ValueError, are both rendered as
none. -/
def renderSlice (st : WindowBuffer) (d : Nat) : Option (List (Option Int)) :=
  let W := windowSamples st
  let B := bufferSamples st
  let start : Int := (st.samplesSeen + whiteOut st : Int) - (W : Int)
  let indices : List Int := (List.range W).map fun (i : Nat) => start + (i : Int)
  let scroll : List Int := indices.map fun a => a % (B : Int)
  match indices.findIdx? fun a => a % (W : Int) == 1 with
  | none => none
  | some split =>
    let reordered := (scroll.drop split ++ scroll.take split).map fun a => st.buffer a.toNat
    pyStride reordered d

/-- The slice the spec text describes for renderSlice: the ring contents
for the absolute index range from samplesSeen + whiteOutWidth -
windowSeconds * sampleRate up to samplesSeen + whiteOutWidth, read in
logical time order.  Stated from the spec words, for comparison with
the source embedding renderSlice. -/
def chronoWindow (st : WindowBuffer) : List (Option Int) :=
  (List.range (windowSamples st)).map fun (i : Nat) =>
    st.buffer ((((st.samplesSeen + whiteOut st : Int) - (windowSamples st : Int) + (i : Int)) %
      (bufferSamples st : Int)).toNat)

/-- The split position the source search finds: the offset inside the
window of the unique absolute index congruent to 1 modulo the window
length. -/
def splitIdx (st : WindowBuffer) : Nat :=
  (((1 : Int) - (st.samplesSeen + whiteOut st : Int)) % (windowSamples st : Int)).toNat

/-- RealTimePlot._decrease_time_range: the minimum window size is 1
second, a request below it leaves window_size unchanged. -/
def decreaseTimeRange (windowSize : Nat) : Nat :=
  if 1 < windowSize then windowSize - 1 else windowSize

/-- RealTimePlot._increase_time_range: the maximum window size is
_buffer_size seconds, a request beyond it leaves window_size unchanged. -/
def increaseTimeRange (windowSize bufferSize : Nat) : Nat :=
  if windowSize < bufferSize then windowSize + 1 else windowSize

/-- np.reshape(sd.samples, (num_samples_per_sample_set, num_sample_sets),
order of Fortran): entry (c, s) of the reshaped array is flat payload
element c + s * C, the first axis varying fastest. -/
def reshapeF (payload : List Int) (C : Nat) (c s : Nat) : Int :=
  payload.getD (c + s * C) 0

/-- Row c of the reshaped block: the per channel sample list that the
write path stores for channel c, for a block of S sample sets. -/
def channelRow (payload : List Int) (C S c : Nat) : List Int :=
  (List.range S).map fun s => reshapeF payload C c s

/-- RealTimePlot.initUI: self._downsampling_factor =
int(self.sample_rate / 500), the truncated true division, which is the
floor for a nonnegative rate. -/
def downsamplingFactor (sampleRate : Nat) : Nat := sampleRate / 500

/-- The lag flag update at the head of the queue drain loop in
SamplingThread.update_samples: a depth above 10 sets it, a depth below 6
clears it, anything between keeps it. -/
def lagStep (lag : Bool) (qsize : Nat) : Bool :=
  if 10 < qsize then true else if qsize < 6 then false else lag

/-- One iteration of the inner drain loop of update_samples: update the
lag flag from the observed queue depth, dequeue and write the block, and
either stay silent while lagging or emit the rendered frame. -/
def samplingIter (st : WindowBuffer) (lag : Bool) (qsize : Nat) (blk : List Int) (d : Nat) :
    WindowBuffer × Bool × Option (List (Option Int)) :=
  let lagNew := lagStep lag qsize
  let stNew := writeBlock st blk
  (stNew, lagNew, if lagNew then none else renderSlice stNew d)

/-- Observable scheduling actions of one renderer loop body. -/
inductive LoopAction where
  | getBlock
  | writeBuffer
  | emitFrame
  | sleepMs (ms : Nat)
deriving DecidableEq

/-- Action trace of one pass of the outer loop body of
SamplingThread.update_samples in plotter.py over the queued blocks: each
block is dequeued and written, then followed by time.sleep(0.001) in lag
mode or an emitted frame plus time.sleep(0.01); when the queue is empty
the inner while exits and the outer loop re-checks at once, with no
trailing action. -/
def plotterLoopTrace (st : WindowBuffer) (lag : Bool) (d : Nat) :
    List (List Int) → List LoopAction
  | [] => []
  | blk :: rest =>
    let lagNew := lagStep lag (blk :: rest).length
    LoopAction.getBlock :: LoopAction.writeBuffer ::
      ((if lagNew then [LoopAction.sleepMs 1]
        else [LoopAction.emitFrame, LoopAction.sleepMs 10]) ++
        plotterLoopTrace (writeBlock st blk) lagNew d rest)

/-- Action trace of one pass of the outer loop body of
SamplingThread.update_samples in impedance_plotter.py: drain the queue,
emitting the impedance values of each block, then time.sleep(1) before
the outer loop re-checks. -/
def impedanceLoopTrace : List (List Int) → List LoopAction
  | [] => [LoopAction.sleepMs 1000]
  | _ :: rest => LoopAction.getBlock :: LoopAction.emitFrame :: impedanceLoopTrace rest

/-- ImpedancePlot._lookup_table: the branch chain mapped to RGB triples;
none models the fall through where no branch binds color_code and the
return raises UnboundLocalError. -/
def lookupTable (value : Int) : Option (Nat × Nat × Nat) :=
  if value < 5 then some (0, 255, 0)
  else if 5 ≤ value ∧ value < 10 then some (0, 204, 0)
  else if 10 ≤ value ∧ value < 30 then some (0, 153, 0)
  else if 30 ≤ value ∧ value < 50 then some (0, 102, 0)
  else if 50 ≤ value ∧ value < 100 then some (255, 255, 0)
  else if 100 ≤ value ∧ value < 200 then some (204, 128, 0)
  else if 200 ≤ value ∧ value < 400 then some (255, 0, 0)
  else if 400 ≤ value ∧ value < 500 then some (153, 0, 0)
  else if value = 500 then some (102, 66, 33)
  else if value = 5000 then some (128, 128, 128)
  else if value = 5100 then some (204, 0, 102)
  else if value = 5200 then some (0, 0, 179)
  else none

/-- A small concrete configuration: 25 Hz, 2 second ring of 50 slots,
1 second window of 25 samples, white out width 1. -/
def wbTiny : WindowBuffer :=
  { sampleRate := 25, bufferSize := 2, windowSize := 1,
    buffer := fun _ => none, samplesSeen := 0 }

/-- Six consecutive blocks of ten samples whose values equal their
logical sample index. -/
def blkTiny (b : Nat) : List Int :=
  (List.range 10).map fun i => ((10 * b + i : Nat) : Int)

/-- wbTiny after the six writes: sixty samples seen, the fifty slot ring
has wrapped. -/
def wbTinyWrapped : WindowBuffer :=
  (List.range 6).foldl (fun st b => writeBlock st (blkTiny b)) wbTiny

/-- The scenario configuration of the spec: 1000 Hz, 10 second ring of
10000 slots, 5 second window of 5000 samples, white out width 200. -/
def wbC2 : WindowBuffer :=
  { sampleRate := 1000, bufferSize := 10, windowSize := 5,
    buffer := fun _ => none, samplesSeen := 0 }

/-- Block b of the scenario: the thousand samples with logical indices
1000 b .. 1000 b + 999, each value equal to its logical index. -/
def blkC2 (b : Nat) : List Int :=
  (List.range 1000).map fun i => ((1000 * b + i : Nat) : Int)

/-- The scenario state after writing n of the twelve blocks. -/
def stepC2 : Nat → WindowBuffer
  | 0 => wbC2
  | n + 1 => writeBlock (stepC2 n) (blkC2 n)

/-- What the source renders in the scenario: samples 10001..11999, then
the 200 white out gaps at absolute indices 12000..12199, then samples
7200..10000. -/
def expectedC2 : List (Option Int) :=
  (List.range 5000).map fun j =>
    if j < 1999 then some ((10001 + j : Nat) : Int)
    else if j < 2199 then none
    else some ((5001 + j : Nat) : Int)

/-- The slice the scenario claim expects: samples 7000..11999 in logical
order. -/
def claimedC2 : List (Option Int) :=
  (List.range 5000).map fun j => some ((7000 + j : Nat) : Int)

/-- Evaluation of a fold of element assignments at a position none of the
assignments touches. -/
lemma foldl_upd_range_skip (g : Nat → Nat) (v : Nat → Option Int) (n p : Nat) (b : Buf)
    (h : ∀ i, i < n → g i ≠ p) :
    ((List.range n).foldl (fun acc i => upd acc (g i) (v i)) b) p = b p := by
  induction n with
  | zero => simp
  | succ m ih =>
    rw [List.range_succ, List.foldl_append]
    simp only [List.foldl_cons, List.foldl_nil]
    have hm : g m ≠ p := h m (Nat.lt_succ_self m)
    show upd _ (g m) (v m) p = b p
    simp only [upd]
    rw [if_neg (Ne.symm hm)]
    exact ih fun i hi => h i (Nat.lt_succ_of_lt hi)

/-- Evaluation of a fold of element assignments at a position whose last
touching assignment is the one at index j. -/
lemma foldl_upd_range_hit (g : Nat → Nat) (v : Nat → Option Int) (n p j : Nat) (b : Buf)
    (hj : j < n) (hgj : g j = p) (hafter : ∀ i, j < i → i < n → g i ≠ p) :
    ((List.range n).foldl (fun acc i => upd acc (g i) (v i)) b) p = v j := by
  induction n with
  | zero => omega
  | succ m ih =>
    rw [List.range_succ, List.foldl_append]
    simp only [List.foldl_cons, List.foldl_nil]
    show upd _ (g m) (v m) p = v j
    rcases Nat.lt_succ_iff_lt_or_eq.mp hj with hlt | rfl
    · have hm : g m ≠ p := hafter m hlt (Nat.lt_succ_self m)
      simp only [upd]
      rw [if_neg (Ne.symm hm)]
      exact ih hlt fun i hji him => hafter i hji (Nat.lt_succ_of_lt him)
    · simp only [upd, hgj, if_pos rfl]
      simp

/-- Remainder of a number below twice the modulus. -/
lemma mod_two_case (a B : Nat) (hB : 0 < B) (h : a < 2 * B) :
    a % B = if a < B then a else a - B := by
  split
  · exact Nat.mod_eq_of_lt (by assumption)
  · have hle : B ≤ a := Nat.le_of_not_lt (by assumption)
    rw [Nat.mod_eq_sub_mod hle]
    exact Nat.mod_eq_of_lt (by omega)

/-- For positions and offsets inside the ring, the destination equation
of one assignment has a unique solution. -/
lemma mod_shift_iff (B ss p i : Nat) (hB : 0 < B) (hi : i < B) (hp : p < B) :
    (ss + i) % B = p ↔ i = (p + B - ss % B) % B := by
  have hs : ss % B < B := Nat.mod_lt _ hB
  have h1 : (ss + i) % B = (ss % B + i) % B := by
    conv_lhs => rw [Nat.add_mod, Nat.mod_eq_of_lt hi]
  rw [h1, mod_two_case (ss % B + i) B hB (by omega),
    mod_two_case (p + B - ss % B) B hB (by omega)]
  split_ifs <;> omega

/-- Element lookup with default inside a mapped range. -/
lemma getD_range_map {α : Type} (f : Nat → α) (n i : Nat) (d : α) (h : i < n) :
    ((List.range n).map f).getD i d = f i := by
  rw [List.getD_eq_getElem?_getD, List.getElem?_map, List.getElem?_range h]
  rfl

/-- The write step advances samples_seen by exactly the block length. -/
lemma writeBlock_samplesSeen (st : WindowBuffer) (blk : List Int) :
    (writeBlock st blk).samplesSeen = st.samplesSeen + blk.length := rfl

/-- The write step keeps the sample rate. -/
lemma writeBlock_sampleRate (st : WindowBuffer) (blk : List Int) :
    (writeBlock st blk).sampleRate = st.sampleRate := rfl

/-- The write step keeps the ring length. -/
lemma writeBlock_bufferSize (st : WindowBuffer) (blk : List Int) :
    (writeBlock st blk).bufferSize = st.bufferSize := rfl

/-- The write step keeps the window size. -/
lemma writeBlock_windowSize (st : WindowBuffer) (blk : List Int) :
    (writeBlock st blk).windowSize = st.windowSize := rfl

/-- Full characterisation of the ring row after one write: position p
receives sample j of the block when the unique offset j mapping to p
falls inside the block, the sentinel when it falls in the white out
region, and keeps its previous value otherwise. -/
lemma writeBlock_buffer (st : WindowBuffer) (blk : List Int) (p : Nat)
    (hkw : blk.length + whiteOut st ≤ bufferSamples st) (hp : p < bufferSamples st) :
    (writeBlock st blk).buffer p =
      if (p + bufferSamples st - st.samplesSeen % bufferSamples st) % bufferSamples st
          < blk.length then
        some (blk.getD
          ((p + bufferSamples st - st.samplesSeen % bufferSamples st) % bufferSamples st) 0)
      else if (p + bufferSamples st - st.samplesSeen % bufferSamples st) % bufferSamples st
          < blk.length + whiteOut st then none
      else st.buffer p := by
  have hB : 0 < bufferSamples st := by omega
  set k := blk.length with hk
  set w := whiteOut st with hw
  set B := bufferSamples st with hBdef
  set ss := st.samplesSeen with hss
  set j0 := (p + B - ss % B) % B with hj0
  have hj0B : j0 < B := Nat.mod_lt _ hB
  have hiff : ∀ i, i < B → (((ss + i) % B = p) ↔ i = j0) :=
    fun i hi => mod_shift_iff B ss p i hB hi hp
  simp only [writeBlock]
  by_cases h1 : j0 < k
  · rw [if_pos h1]
    have hskipw : ∀ i, i < w → (ss + (k + i)) % B ≠ p := by
      intro i hi hc
      have := (hiff (k + i) (by omega)).mp hc
      omega
    rw [foldl_upd_range_skip _ _ w p _ hskipw]
    exact foldl_upd_range_hit _ _ k p j0 _ h1 ((hiff j0 (by omega)).mpr rfl)
      (fun i hji hik hc => by have := (hiff i (by omega)).mp hc; omega)
  · rw [if_neg h1]
    by_cases h2 : j0 < k + w
    · rw [if_pos h2]
      have : (fun i => none : Nat → Option Int) (j0 - k) = none := rfl
      rw [show (none : Option Int) = (fun _ => (none : Option Int)) (j0 - k) from rfl]
      exact foldl_upd_range_hit _ _ w p (j0 - k) _ (by omega)
        (by
          have : k + (j0 - k) = j0 := by omega
          rw [this]
          exact (hiff j0 (by omega)).mpr rfl)
        (fun i hji hiw hc => by have := (hiff (k + i) (by omega)).mp hc; omega)
    · rw [if_neg h2]
      have hskipw : ∀ i, i < w → (ss + (k + i)) % B ≠ p := by
        intro i hi hc
        have := (hiff (k + i) (by omega)).mp hc
        omega
      rw [foldl_upd_range_skip _ _ w p _ hskipw]
      exact foldl_upd_range_skip _ _ k p _
        (fun i hi hc => by have := (hiff i (by omega)).mp hc; omega)


/-- Arithmetic of the split search: among W consecutive integers
starting at T - W, the unique one congruent to 1 modulo W sits at
offset (1 - T) mod W. -/
lemma int_window_residue (T W : Int) (hW : 2 ≤ W) :
    0 ≤ (1 - T) % W ∧ (1 - T) % W < W ∧
    ∀ i : Int, 0 ≤ i → i < W → ((T - W + i) % W = 1 ↔ i = (1 - T) % W) := by
  have hW0 : W ≠ 0 := by omega
  have hWpos : 0 < W := by omega
  have hone : (1 : Int) % W = 1 := Int.emod_eq_of_lt (by omega) (by omega)
  have hfold : (1 - T % W) % W = (1 - T) % W := by
    conv_rhs => rw [Int.sub_emod, hone]
  refine ⟨Int.emod_nonneg _ hW0, Int.emod_lt_of_pos _ hWpos, ?_⟩
  intro i hi0 hiW
  have hshift : (T - W + i) % W = (T + i) % W := by
    have harr : T - W + i = T + i + W * (-1) := by ring
    rw [harr, Int.add_mul_emod_self_left]
  rw [hshift]
  constructor
  · intro h
    have hsub : i % W = ((T + i) % W - T % W) % W := by
      rw [← Int.sub_emod]
      have harr : T + i - T = i := by ring
      rw [harr]
    rw [h, hfold] at hsub
    rw [Int.emod_eq_of_lt hi0 hiW] at hsub
    exact hsub
  · intro h
    subst h
    have h1 : (T + (1 - T) % W) % W = (T + (1 - T)) % W := by
      rw [Int.add_emod, Int.emod_emod_of_dvd _ (dvd_refl W), ← Int.add_emod]
    rw [h1]
    have harr : T + (1 - T) = 1 := by ring
    rw [harr, hone]

/-- The split search of renderSlice finds exactly splitIdx. -/
lemma findIdx?_split (st : WindowBuffer) (hW : 2 ≤ windowSamples st) :
    (((List.range (windowSamples st)).map fun (i : Nat) =>
        (st.samplesSeen + whiteOut st : Int) - (windowSamples st : Int) + (i : Int)).findIdx?
      fun a => a % (windowSamples st : Int) == 1) = some (splitIdx st) := by
  have hW2 : (2 : Int) ≤ (windowSamples st : Int) := by exact_mod_cast hW
  obtain ⟨hr0, hrW, hiff⟩ :=
    int_window_residue (st.samplesSeen + whiteOut st : Int) (windowSamples st : Int) hW2
  have hsplit : ((splitIdx st : Nat) : Int) =
      ((1 : Int) - (st.samplesSeen + whiteOut st : Int)) % (windowSamples st : Int) := by
    rw [splitIdx]
    exact Int.toNat_of_nonneg hr0
  have hsW : splitIdx st < windowSamples st := by omega
  rw [List.findIdx?_eq_some_iff_getElem]
  refine ⟨by rw [List.length_map, List.length_range]; exact hsW, ?_, ?_⟩
  · simp only [List.getElem_map, List.getElem_range, beq_iff_eq]
    exact (hiff (splitIdx st) (by omega) (by exact_mod_cast hsW)).mpr hsplit
  · intro j hj
    simp only [List.getElem_map, List.getElem_range, beq_iff_eq, Bool.not_eq_true,
      decide_eq_false_iff_not]
    intro hc
    have hjW : j < windowSamples st := by omega
    have := (hiff (j : Int) (by omega) (by exact_mod_cast hjW)).mp hc
    omega

/-- The split offset lies inside the window. -/
lemma splitIdx_lt (st : WindowBuffer) (hW : 0 < windowSamples st) :
    splitIdx st < windowSamples st := by
  rw [splitIdx]
  have h1 : ((1 : Int) - (st.samplesSeen + whiteOut st : Int)) % (windowSamples st : Int) <
      (windowSamples st : Int) := Int.emod_lt_of_pos _ (by exact_mod_cast hW)
  omega

/-- Core shape of the rendered frame: the chronological ring window
rotated left by the split offset, then strided. -/
lemma renderSlice_some_rotate (st : WindowBuffer) (d : Nat)
    (hW : 2 ≤ windowSamples st) (hd : 0 < d) :
    renderSlice st d = some (strideSel ((chronoWindow st).rotate (splitIdx st)) d) := by
  have hlen : (chronoWindow st).length = windowSamples st := by
    rw [chronoWindow, List.length_map, List.length_range]
  have hsW : splitIdx st ≤ (chronoWindow st).length := by
    rw [hlen]
    exact Nat.le_of_lt (splitIdx_lt st (by omega))
  have hrot : (chronoWindow st).rotate (splitIdx st) =
      (chronoWindow st).drop (splitIdx st) ++ (chronoWindow st).take (splitIdx st) :=
    List.rotate_eq_drop_append_take hsW
  have hM : ((((List.range (windowSamples st)).map fun (i : Nat) =>
        (st.samplesSeen + whiteOut st : Int) - (windowSamples st : Int) + (i : Int)).map
      fun a => a % (bufferSamples st : Int)).map fun a => st.buffer a.toNat) =
      chronoWindow st := by
    simp only [List.map_map]
    rfl
  simp only [renderSlice]
  rw [findIdx?_split st hW]
  simp only [pyStride, if_neg (Nat.pos_iff_ne_zero.mp hd)]
  rw [hrot, List.map_append, List.map_drop, List.map_take, hM]


/-- Shifting every index by the stride does not change the selection. -/
lemma filterMap_enumFrom_shift (d : Nat) (s : List (Option Int)) (k : Nat) :
    ((s.enumFrom (k + d)).filterMap fun p => if p.1 % d = 0 then some p.2 else none) =
    ((s.enumFrom k).filterMap fun p => if p.1 % d = 0 then some p.2 else none) := by
  induction s generalizing k with
  | nil => rfl
  | cons x t ih =>
    simp only [List.enumFrom_cons]
    by_cases h : k % d = 0
    · have hl : ((((k + d, x) : Nat × Option Int) :: t.enumFrom (k + d + 1)).filterMap
          fun p => if p.1 % d = 0 then some p.2 else none) =
          x :: ((t.enumFrom (k + d + 1)).filterMap
            fun p => if p.1 % d = 0 then some p.2 else none) :=
        List.filterMap_cons_some (by
          show (if (k + d) % d = 0 then some x else none) = some x
          rw [Nat.add_mod_right, if_pos h])
      have hr : ((((k, x) : Nat × Option Int) :: t.enumFrom (k + 1)).filterMap
          fun p => if p.1 % d = 0 then some p.2 else none) =
          x :: ((t.enumFrom (k + 1)).filterMap
            fun p => if p.1 % d = 0 then some p.2 else none) :=
        List.filterMap_cons_some (by
          show (if k % d = 0 then some x else none) = some x
          rw [if_pos h])
      rw [hl, hr]
      have harr : k + d + 1 = (k + 1) + d := by omega
      rw [harr, ih (k + 1)]
    · have hl : ((((k + d, x) : Nat × Option Int) :: t.enumFrom (k + d + 1)).filterMap
          fun p => if p.1 % d = 0 then some p.2 else none) =
          (t.enumFrom (k + d + 1)).filterMap
            fun p => if p.1 % d = 0 then some p.2 else none :=
        List.filterMap_cons_none (by
          show (if (k + d) % d = 0 then some x else none) = none
          rw [Nat.add_mod_right, if_neg h])
      have hr : ((((k, x) : Nat × Option Int) :: t.enumFrom (k + 1)).filterMap
          fun p => if p.1 % d = 0 then some p.2 else none) =
          (t.enumFrom (k + 1)).filterMap
            fun p => if p.1 % d = 0 then some p.2 else none :=
        List.filterMap_cons_none (by
          show (if k % d = 0 then some x else none) = none
          rw [if_neg h])
      rw [hl, hr]
      have harr : k + d + 1 = (k + 1) + d := by omega
      rw [harr, ih (k + 1)]

/-- Selection from a tail whose first index is d - a steps before the
next multiple of the stride. -/
lemma strideSel_aux (d : Nat) (hd : 0 < d) (t : List (Option Int)) :
    ∀ a : Nat, a < d →
      ((t.enumFrom (d - a)).filterMap fun p => if p.1 % d = 0 then some p.2 else none) =
      strideSel (t.drop a) d := by
  induction t with
  | nil => intro a ha; simp [strideSel]
  | cons x s ih =>
    intro a ha
    rcases a with _ | b
    · simp only [Nat.sub_zero, List.enumFrom_cons, List.drop_zero]
      have hl : ((((d, x) : Nat × Option Int) :: s.enumFrom (d + 1)).filterMap
          fun p => if p.1 % d = 0 then some p.2 else none) =
          x :: ((s.enumFrom (d + 1)).filterMap
            fun p => if p.1 % d = 0 then some p.2 else none) :=
        List.filterMap_cons_some (by
          show (if d % d = 0 then some x else none) = some x
          rw [Nat.mod_self, if_pos rfl])
      rw [hl, strideSel, List.enum_cons]
      have hr : ((((0, x) : Nat × Option Int) :: s.enumFrom 1).filterMap
          fun p => if p.1 % d = 0 then some p.2 else none) =
          x :: ((s.enumFrom 1).filterMap
            fun p => if p.1 % d = 0 then some p.2 else none) :=
        List.filterMap_cons_some (by
          show (if 0 % d = 0 then some x else none) = some x
          rw [Nat.zero_mod, if_pos rfl])
      rw [hr]
      congr 1
      have harr : d + 1 = 1 + d := by omega
      rw [harr]
      exact filterMap_enumFrom_shift d s 1
    · have hb : b < d := by omega
      have h3 : d - (b + 1) < d := by omega
      have h1 : d - (b + 1) + 1 = d - b := by omega
      simp only [List.enumFrom_cons, List.drop_succ_cons]
      have hl : ((((d - (b + 1), x) : Nat × Option Int) ::
            s.enumFrom (d - (b + 1) + 1)).filterMap
          fun p => if p.1 % d = 0 then some p.2 else none) =
          (s.enumFrom (d - (b + 1) + 1)).filterMap
            fun p => if p.1 % d = 0 then some p.2 else none :=
        List.filterMap_cons_none (by
          show (if (d - (b + 1)) % d = 0 then some x else none) = none
          rw [Nat.mod_eq_of_lt h3, if_neg (by omega)])
      rw [hl, h1]
      exact ih b hb

/-- Recursion of the stride selection: keep the head, then select from
the list with the next d - 1 elements removed. -/
lemma strideSel_cons (d : Nat) (hd : 0 < d) (x : Option Int) (t : List (Option Int)) :
    strideSel (x :: t) d = x :: strideSel (t.drop (d - 1)) d := by
  rw [strideSel, List.enum_cons]
  have hl : ((((0, x) : Nat × Option Int) :: t.enumFrom 1).filterMap
      fun p => if p.1 % d = 0 then some p.2 else none) =
      x :: ((t.enumFrom 1).filterMap
        fun p => if p.1 % d = 0 then some p.2 else none) :=
    List.filterMap_cons_some (by
      show (if 0 % d = 0 then some x else none) = some x
      rw [Nat.zero_mod, if_pos rfl])
  rw [hl]
  congr 1
  have h := strideSel_aux d hd t (d - 1) (by omega)
  rwa [show d - (d - 1) = 1 from by omega] at h

/-- Length and sublist facts of the stride selection, by strong
induction on the list length. -/
lemma strideSel_length_aux (d : Nat) (hd : 0 < d) :
    ∀ (n : Nat) (l : List (Option Int)), l.length ≤ n →
      (strideSel l d).length = (l.length + d - 1) / d ∧ (strideSel l d).Sublist l := by
  intro n
  induction n with
  | zero =>
    intro l hl
    have hnil : l = [] := List.eq_nil_of_length_eq_zero (by omega)
    subst hnil
    refine ⟨?_, by simp [strideSel]⟩
    have hz : (strideSel ([] : List (Option Int)) d).length = 0 := rfl
    have hlen : ([] : List (Option Int)).length + d - 1 = d - 1 := by simp
    rw [hz, hlen, Nat.div_eq_of_lt (by omega)]
  | succ m ih =>
    intro l hl
    rcases l with _ | ⟨x, t⟩
    · refine ⟨?_, by simp [strideSel]⟩
      have hz : (strideSel ([] : List (Option Int)) d).length = 0 := rfl
      have hlen : ([] : List (Option Int)).length + d - 1 = d - 1 := by simp
      rw [hz, hlen, Nat.div_eq_of_lt (by omega)]
    · rw [strideSel_cons d hd]
      have hdrop : (t.drop (d - 1)).length = t.length - (d - 1) := List.length_drop _ _
      obtain ⟨ihl, ihs⟩ := ih (t.drop (d - 1)) (by simp at hl ⊢; omega)
      constructor
      · simp only [List.length_cons, ihl, hdrop]
        rcases le_or_lt (d - 1) t.length with hge | hlt
        · have h2 : t.length - (d - 1) + d - 1 = t.length := by omega
          rw [h2]
          have h3 : t.length + 1 + d - 1 = t.length + d := by omega
          rw [h3, Nat.add_div_right _ hd]
        · have h2 : t.length - (d - 1) = 0 := by omega
          rw [h2]
          have h3 : (0 + d - 1) / d = 0 := Nat.div_eq_of_lt (by omega)
          rw [h3]
          have h4 : t.length + 1 + d - 1 = t.length + d := by omega
          rw [h4, Nat.add_div_right _ hd]
          have h5 : t.length / d = 0 := Nat.div_eq_of_lt (by omega)
          rw [h5]
      · exact List.Sublist.cons₂ x (ihs.trans (List.drop_sublist _ _))

/-- Length of the stride selection: the ceiling of length over stride. -/
lemma strideSel_length (l : List (Option Int)) (d : Nat) (hd : 0 < d) :
    (strideSel l d).length = (l.length + d - 1) / d :=
  (strideSel_length_aux d hd l.length l (Nat.le_refl _)).1

/-- The stride selection is a sublist of its input. -/
lemma strideSel_sublist (l : List (Option Int)) (d : Nat) (hd : 0 < d) :
    (strideSel l d).Sublist l :=
  (strideSel_length_aux d hd l.length l (Nat.le_refl _)).2

/-- When the stride divides the length the ceiling is the exact
quotient. -/
lemma ceil_div_of_dvd (n d : Nat) (hd : 0 < d) (hdvd : d ∣ n) :
    (n + d - 1) / d = n / d := by
  obtain ⟨m, rfl⟩ := hdvd
  set q := d * m with hq
  have h1 : q + d - 1 = (d - 1) + q := by omega
  rw [h1, hq, Nat.mul_comm d m, Nat.add_mul_div_right _ _ hd,
    Nat.div_eq_of_lt (by omega), Nat.mul_comm m d, Nat.mul_div_cancel_left _ hd]
  omega

/-- Every element of the chronological window is a ring cell inside the
buffer bounds. -/
lemma chronoWindow_mem (st : WindowBuffer) (hB : 0 < bufferSamples st) :
    ∀ x ∈ chronoWindow st, ∃ p, p < bufferSamples st ∧ x = st.buffer p := by
  intro x hx
  rw [chronoWindow] at hx
  obtain ⟨i, hi, hxe⟩ := List.mem_map.mp hx
  refine ⟨(((st.samplesSeen + whiteOut st : Int) - (windowSamples st : Int) + (i : Int)) %
      (bufferSamples st : Int)).toNat, ?_, hxe.symm⟩
  have hne : (bufferSamples st : Int) ≠ 0 := by
    simp only [ne_eq, Nat.cast_eq_zero]
    omega
  have h0 := Int.emod_nonneg
    ((st.samplesSeen + whiteOut st : Int) - (windowSamples st : Int) + (i : Int)) hne
  have h1 := Int.emod_lt_of_pos
    ((st.samplesSeen + whiteOut st : Int) - (windowSamples st : Int) + (i : Int))
    (show (0 : Int) < (bufferSamples st : Int) by exact_mod_cast hB)
  omega

/-- Monotonicity of samples_seen over any sequence of writes. -/
lemma samplesSeen_mono (blks : List (List Int)) :
    ∀ st : WindowBuffer, st.samplesSeen ≤ (blks.foldl writeBlock st).samplesSeen := by
  induction blks with
  | nil => intro st; exact Nat.le_refl _
  | cons b rest ih =>
    intro st
    simp only [List.foldl_cons]
    have h1 : st.samplesSeen ≤ (writeBlock st b).samplesSeen := by
      rw [writeBlock_samplesSeen]
      exact Nat.le_add_right _ _
    exact Nat.le_trans h1 (ih (writeBlock st b))

/-- C3: write targets the ring indices (samplesSeen + i) mod
bufferSamples for i below k + w, stores the k samples in the first k of
those slots and the sentinel in the trailing w slots, advances
samplesSeen by exactly k, and samplesSeen is monotone over every write
sequence. -/
theorem write_targets_and_advances (st : WindowBuffer) (blk : List Int)
    (hw : 0 < whiteOut st) (hkw : blk.length + whiteOut st ≤ bufferSamples st) :
    (∀ j, j < blk.length →
      (writeBlock st blk).buffer ((st.samplesSeen + j) % bufferSamples st) =
        some (blk.getD j 0)) ∧
    (∀ j, blk.length ≤ j → j < blk.length + whiteOut st →
      (writeBlock st blk).buffer ((st.samplesSeen + j) % bufferSamples st) = none) ∧
    (writeBlock st blk).samplesSeen = st.samplesSeen + blk.length ∧
    (∀ blks : List (List Int),
      st.samplesSeen ≤ (blks.foldl writeBlock st).samplesSeen) := by
  have hB : 0 < bufferSamples st := by omega
  refine ⟨?_, ?_, rfl, fun blks => samplesSeen_mono blks st⟩
  · intro j hj
    have hp : (st.samplesSeen + j) % bufferSamples st < bufferSamples st := Nat.mod_lt _ hB
    rw [writeBlock_buffer st blk _ hkw hp]
    have hj0 : ((st.samplesSeen + j) % bufferSamples st + bufferSamples st -
        st.samplesSeen % bufferSamples st) % bufferSamples st = j :=
      ((mod_shift_iff (bufferSamples st) st.samplesSeen
        ((st.samplesSeen + j) % bufferSamples st) j hB (by omega) hp).mp rfl).symm
    rw [hj0, if_pos hj]
  · intro j hjk hjkw
    have hp : (st.samplesSeen + j) % bufferSamples st < bufferSamples st := Nat.mod_lt _ hB
    rw [writeBlock_buffer st blk _ hkw hp]
    have hj0 : ((st.samplesSeen + j) % bufferSamples st + bufferSamples st -
        st.samplesSeen % bufferSamples st) % bufferSamples st = j :=
      ((mod_shift_iff (bufferSamples st) st.samplesSeen
        ((st.samplesSeen + j) % bufferSamples st) j hB (by omega) hp).mp rfl).symm
    rw [hj0, if_neg (by omega), if_pos hjkw]

/-- Witness for C3 at the small configuration and the block [7, 8, 9]. -/
theorem write_targets_and_advances_witness :
    0 < whiteOut wbTiny ∧ [7, 8, 9].length + whiteOut wbTiny ≤ bufferSamples wbTiny ∧
    (writeBlock wbTiny [7, 8, 9]).buffer ((wbTiny.samplesSeen + 1) % bufferSamples wbTiny) =
      some (([7, 8, 9] : List Int).getD 1 0) :=
  ⟨by decide, by decide,
    (write_targets_and_advances wbTiny [7, 8, 9] (by decide) (by decide)).1 1 (by decide)⟩

/-- C1 corrected: for every state with a window of at least two samples
and a positive stride, the rendered frame is the chronological ring
window of the last windowSamples absolute indices rotated left by
splitIdx, the offset of the unique absolute index congruent to 1 modulo
the window length, then strided.  The rotation is a permutation of the
chronological window, so no sample of the window is lost or duplicated,
but the later segment is emitted first: the frame is in logical time
order only when splitIdx is zero. -/
theorem renderSlice_rotated_window (st : WindowBuffer) (d : Nat)
    (hW : 2 ≤ windowSamples st) (hd : 0 < d) :
    renderSlice st d = some (strideSel ((chronoWindow st).rotate (splitIdx st)) d) ∧
    ((chronoWindow st).rotate (splitIdx st)).Perm (chronoWindow st) ∧
    splitIdx st < windowSamples st :=
  ⟨renderSlice_some_rotate st d hW hd, List.rotate_perm _ _, splitIdx_lt st (by omega)⟩

/-- Witness for the corrected C1 at the small fresh configuration. -/
theorem renderSlice_rotated_window_witness :
    2 ≤ windowSamples wbTiny ∧ 0 < 1 ∧
    (renderSlice wbTiny 1 =
        some (strideSel ((chronoWindow wbTiny).rotate (splitIdx wbTiny)) 1) ∧
      ((chronoWindow wbTiny).rotate (splitIdx wbTiny)).Perm (chronoWindow wbTiny) ∧
      splitIdx wbTiny < windowSamples wbTiny) :=
  ⟨by decide, by decide, renderSlice_rotated_window wbTiny 1 (by decide) (by decide)⟩

/-- C1 as stated fails on the source: after sixty samples through the
fifty slot ring, the rendered frame is neither the chronological ring
window nor the most recent twenty five samples in logical arrival
order; the split rotates the window. -/
theorem render_not_chronological_cex :
    renderSlice wbTinyWrapped 1 ≠ some (chronoWindow wbTinyWrapped) ∧
    renderSlice wbTinyWrapped 1 ≠
      some ((List.range 25).map fun i => some ((35 + i : Nat) : Int)) := by
  constructor
  · decide
  · decide

/-- C4: the rendered frame always has exactly windowSamples over stride
elements, regardless of warm up state, and every element is passed
through from a ring cell, so unwritten cells surface as the sentinel. -/
theorem renderSlice_fixed_length (st : WindowBuffer) (d : Nat)
    (hW : 2 ≤ windowSamples st) (hd : 0 < d) (hdvd : d ∣ windowSamples st)
    (hB : 0 < bufferSamples st) :
    ∃ l, renderSlice st d = some l ∧ l.length = windowSamples st / d ∧
      ∀ x ∈ l, ∃ p, p < bufferSamples st ∧ x = st.buffer p := by
  refine ⟨strideSel ((chronoWindow st).rotate (splitIdx st)) d,
    renderSlice_some_rotate st d hW hd, ?_, ?_⟩
  · rw [strideSel_length _ d hd, List.length_rotate]
    rw [chronoWindow, List.length_map, List.length_range]
    exact ceil_div_of_dvd _ d hd hdvd
  · intro x hx
    have hx2 : x ∈ (chronoWindow st).rotate (splitIdx st) :=
      (strideSel_sublist _ d hd).subset hx
    exact chronoWindow_mem st hB x (List.mem_rotate.mp hx2)

/-- Witness for C4 at the fresh small configuration, all cells unwritten. -/
theorem renderSlice_fixed_length_witness :
    2 ≤ windowSamples wbTiny ∧ 0 < 1 ∧ 1 ∣ windowSamples wbTiny ∧
    0 < bufferSamples wbTiny ∧
    ∃ l, renderSlice wbTiny 1 = some l ∧ l.length = windowSamples wbTiny / 1 ∧
      ∀ x ∈ l, ∃ p, p < bufferSamples wbTiny ∧ x = wbTiny.buffer p :=
  ⟨by decide, by decide, Nat.one_dvd _, by decide,
    renderSlice_fixed_length wbTiny 1 (by decide) (by decide) (Nat.one_dvd _) (by decide)⟩

/-- C5: the window size invariant 1 to bufferSize is kept by both resize
requests, out of range requests are no-ops, in range requests move the
size by exactly one, and writing never changes the window size. -/
theorem window_resize_invariant (ws B : Nat) (h1 : 1 ≤ ws) (h2 : ws ≤ B) :
    (1 ≤ decreaseTimeRange ws ∧ decreaseTimeRange ws ≤ B) ∧
    (1 ≤ increaseTimeRange ws B ∧ increaseTimeRange ws B ≤ B) ∧
    (ws = 1 → decreaseTimeRange ws = ws) ∧
    (1 < ws → decreaseTimeRange ws = ws - 1) ∧
    (ws = B → increaseTimeRange ws B = ws) ∧
    (ws < B → increaseTimeRange ws B = ws + 1) ∧
    (∀ (st : WindowBuffer) (blk : List Int),
      (writeBlock st blk).windowSize = st.windowSize) := by
  unfold decreaseTimeRange increaseTimeRange
  refine ⟨⟨?_, ?_⟩, ⟨?_, ?_⟩, ?_, ?_, ?_, ?_, fun st blk => rfl⟩ <;>
    intros <;> split_ifs <;> omega

/-- Witness for C5 at window size 3 of 10. -/
theorem window_resize_invariant_witness :
    1 ≤ 3 ∧ (3 : Nat) ≤ 10 ∧ (1 ≤ decreaseTimeRange 3 ∧ decreaseTimeRange 3 ≤ 10) :=
  ⟨by decide, by decide, (window_resize_invariant 3 10 (by decide) (by decide)).1⟩

/-- C6: the drain iteration enters lag mode exactly when the observed
depth exceeds 10, leaves it only when the depth falls below 6, keeps it
in between, always writes the dequeued block, and emits no frame while
in lag mode. -/
theorem lag_hysteresis (st : WindowBuffer) (lag : Bool) (qsize : Nat)
    (blk : List Int) (d : Nat) :
    (10 < qsize → (samplingIter st lag qsize blk d).2.1 = true) ∧
    ((samplingIter st lag qsize blk d).2.1 = true → lag = false → 10 < qsize) ∧
    (qsize < 6 → (samplingIter st lag qsize blk d).2.1 = false) ∧
    ((samplingIter st lag qsize blk d).2.1 = false → lag = true → qsize < 6) ∧
    (6 ≤ qsize → qsize ≤ 10 → (samplingIter st lag qsize blk d).2.1 = lag) ∧
    (samplingIter st lag qsize blk d).1 = writeBlock st blk ∧
    ((samplingIter st lag qsize blk d).2.1 = true →
      (samplingIter st lag qsize blk d).2.2 = none) := by
  cases lag <;> by_cases h1 : 10 < qsize <;> by_cases h2 : qsize < 6 <;>
    simp [samplingIter, lagStep, h1, h2] <;> omega

/-- Witness for C6: a depth of eleven switches lag mode on. -/
theorem lag_hysteresis_witness :
    10 < 11 ∧ (samplingIter wbTiny false 11 [5] 1).2.1 = true :=
  ⟨by decide, (lag_hysteresis wbTiny false 11 [5] 1).1 (by decide)⟩

/-- C7 as stated fails on the source: with an empty queue the signal
plotter loop body performs no action at all, re-checking immediately
with no suspension. -/
theorem empty_queue_no_sleep_cex :
    ¬ ∃ ms, LoopAction.sleepMs ms ∈ plotterLoopTrace wbTiny false 1 [] := by
  intro h
  obtain ⟨ms, hm⟩ := h
  simp [plotterLoopTrace] at hm

/-- C7 amended: the impedance plotter loop sleeps one second after each
drain, including on an empty queue, but the signal plotter loop emits no
action on the empty path, so it busy spins there; its sleeps happen only
after processing a block. -/
theorem empty_queue_traces (st : WindowBuffer) (lag : Bool) (d : Nat) :
    plotterLoopTrace st lag d [] = [] ∧
    impedanceLoopTrace [] = [LoopAction.sleepMs 1000] :=
  ⟨rfl, rfl⟩

/-- C8 as stated fails on the source: the reshape is Fortran order, so
channel 1 sample 0 of the payload [0, 1, 2, 3] with two channels and two
sample sets is payload element 1, not the channel major element
1 * 2 + 0 = 2 the claim names. -/
theorem reshape_channel_major_cex :
    reshapeF [0, 1, 2, 3] 2 1 0 ≠ ([0, 1, 2, 3] : List Int).getD (1 * 2 + 0) 0 := by
  decide

/-- C8 amended: the payload is laid out sample set major, interleaved by
time point, so the write path stores for channel c at in block position
s the payload element s * numChannels + c. -/
theorem reshape_interleaved (payload : List Int) (C S c s : Nat) (hs : s < S) :
    (channelRow payload C S c).getD s 0 = payload.getD (s * C + c) 0 := by
  unfold channelRow
  rw [getD_range_map _ _ _ _ hs]
  unfold reshapeF
  rw [Nat.add_comm]

/-- Witness for the amended C8. -/
theorem reshape_interleaved_witness :
    (0 : Nat) < 2 ∧
    (channelRow [0, 1, 2, 3] 2 2 1).getD 0 0 = ([0, 1, 2, 3] : List Int).getD (0 * 2 + 1) 0 :=
  ⟨by decide, reshape_interleaved [0, 1, 2, 3] 2 2 1 0 (by decide)⟩

/-- C9: the impedance color lookup falls through, raising, exactly on
the four gaps strictly between 500 and 5000, 5000 and 5100, 5100 and
5200, and above 5200; below or at 500 and at the three special codes it
returns a color. -/
theorem lookupTable_gaps (v : Int) :
    (lookupTable v = none ↔
      (500 < v ∧ v < 5000) ∨ (5000 < v ∧ v < 5100) ∨
      (5100 < v ∧ v < 5200) ∨ 5200 < v) ∧
    (v ≤ 500 ∨ v = 5000 ∨ v = 5100 ∨ v = 5200 → (lookupTable v).isSome = true) := by
  have hiff : lookupTable v = none ↔
      (500 < v ∧ v < 5000) ∨ (5000 < v ∧ v < 5100) ∨
      (5100 < v ∧ v < 5200) ∨ 5200 < v := by
    unfold lookupTable
    by_cases h1 : v < 5
    · simp only [if_pos h1]; exact iff_of_false (by simp) (by omega)
    simp only [if_neg h1]
    by_cases h2 : 5 ≤ v ∧ v < 10
    · simp only [if_pos h2]; exact iff_of_false (by simp) (by omega)
    simp only [if_neg h2]
    by_cases h3 : 10 ≤ v ∧ v < 30
    · simp only [if_pos h3]; exact iff_of_false (by simp) (by omega)
    simp only [if_neg h3]
    by_cases h4 : 30 ≤ v ∧ v < 50
    · simp only [if_pos h4]; exact iff_of_false (by simp) (by omega)
    simp only [if_neg h4]
    by_cases h5 : 50 ≤ v ∧ v < 100
    · simp only [if_pos h5]; exact iff_of_false (by simp) (by omega)
    simp only [if_neg h5]
    by_cases h6 : 100 ≤ v ∧ v < 200
    · simp only [if_pos h6]; exact iff_of_false (by simp) (by omega)
    simp only [if_neg h6]
    by_cases h7 : 200 ≤ v ∧ v < 400
    · simp only [if_pos h7]; exact iff_of_false (by simp) (by omega)
    simp only [if_neg h7]
    by_cases h8 : 400 ≤ v ∧ v < 500
    · simp only [if_pos h8]; exact iff_of_false (by simp) (by omega)
    simp only [if_neg h8]
    by_cases h9 : v = 500
    · simp only [if_pos h9]; exact iff_of_false (by simp) (by omega)
    simp only [if_neg h9]
    by_cases h10 : v = 5000
    · simp only [if_pos h10]; exact iff_of_false (by simp) (by omega)
    simp only [if_neg h10]
    by_cases h11 : v = 5100
    · simp only [if_pos h11]; exact iff_of_false (by simp) (by omega)
    simp only [if_neg h11]
    by_cases h12 : v = 5200
    · simp only [if_pos h12]; exact iff_of_false (by simp) (by omega)
    simp only [if_neg h12]
    exact iff_of_true trivial (by omega)
  refine ⟨hiff, fun h => ?_⟩
  have hne : lookupTable v ≠ none := by
    intro hc
    have hg := hiff.mp hc
    omega
  exact Option.ne_none_iff_isSome.mp hne

/-- Witness for C9: 501 falls in the first gap and the lookup falls
through. -/
theorem lookupTable_gaps_witness :
    ((500 : Int) < 501 ∧ (501 : Int) < 5000) ∧ lookupTable 501 = none :=
  ⟨by decide, (lookupTable_gaps 501).1.mpr (Or.inl (by decide))⟩

/-- C10: a sample rate below 500 gives downsampling factor zero and the
frame derivation fails on the zero stride; a rate of at least 500 gives
a positive factor, and whenever the split search can succeed the
decimated frame exists. -/
theorem downsampling_zero_stride (st : WindowBuffer) :
    (st.sampleRate < 500 →
      downsamplingFactor st.sampleRate = 0 ∧
      renderSlice st (downsamplingFactor st.sampleRate) = none) ∧
    (500 ≤ st.sampleRate →
      0 < downsamplingFactor st.sampleRate ∧
      (2 ≤ windowSamples st →
        ∃ l, renderSlice st (downsamplingFactor st.sampleRate) = some l)) := by
  constructor
  · intro h
    have hz : downsamplingFactor st.sampleRate = 0 := Nat.div_eq_of_lt h
    refine ⟨hz, ?_⟩
    rw [hz]
    cases hfi : ((List.range (windowSamples st)).map fun (i : Nat) =>
        (st.samplesSeen + whiteOut st : Int) - (windowSamples st : Int) + (i : Int)).findIdx?
        fun a => a % (windowSamples st : Int) == 1 with
    | none => simp [renderSlice, hfi]
    | some s => simp [renderSlice, hfi, pyStride]
  · intro h
    have hp : 0 < downsamplingFactor st.sampleRate := Nat.div_pos h (by omega)
    exact ⟨hp, fun hW => ⟨_, renderSlice_some_rotate st _ hW hp⟩⟩

/-- Witness for C10 at the 25 Hz configuration: the factor is zero and
the slice fails. -/
theorem downsampling_zero_stride_witness :
    wbTiny.sampleRate < 500 ∧
    (downsamplingFactor wbTiny.sampleRate = 0 ∧
      renderSlice wbTiny (downsamplingFactor wbTiny.sampleRate) = none) :=
  ⟨by decide, (downsampling_zero_stride wbTiny).1 (by decide)⟩

/-- Each scenario block holds a thousand samples. -/
lemma blkC2_length (b : Nat) : (blkC2 b).length = 1000 := by
  simp [blkC2]

/-- Configuration facts along the scenario write sequence. -/
lemma stepC2_params (n : Nat) :
    (stepC2 n).sampleRate = 1000 ∧ (stepC2 n).bufferSize = 10 ∧
    (stepC2 n).windowSize = 5 ∧ (stepC2 n).samplesSeen = 1000 * n := by
  induction n with
  | zero => exact ⟨rfl, rfl, rfl, rfl⟩
  | succ m ih =>
    obtain ⟨h1, h2, h3, h4⟩ := ih
    refine ⟨?_, ?_, ?_, ?_⟩
    · rw [show stepC2 (m + 1) = writeBlock (stepC2 m) (blkC2 m) from rfl,
        writeBlock_sampleRate, h1]
    · rw [show stepC2 (m + 1) = writeBlock (stepC2 m) (blkC2 m) from rfl,
        writeBlock_bufferSize, h2]
    · rw [show stepC2 (m + 1) = writeBlock (stepC2 m) (blkC2 m) from rfl,
        writeBlock_windowSize, h3]
    · rw [show stepC2 (m + 1) = writeBlock (stepC2 m) (blkC2 m) from rfl,
        writeBlock_samplesSeen, h4, blkC2_length]
      omega

/-- Ring capacity along the scenario: ten thousand slots. -/
lemma stepC2_bufferSamples (n : Nat) : bufferSamples (stepC2 n) = 10000 := by
  obtain ⟨h1, h2, _, _⟩ := stepC2_params n
  rw [bufferSamples, h1, h2]

/-- White out width along the scenario: two hundred samples. -/
lemma stepC2_whiteOut (n : Nat) : whiteOut (stepC2 n) = 200 := by
  obtain ⟨h1, _, h3, _⟩ := stepC2_params n
  rw [whiteOut, h1, h3]

/-- Window length along the scenario: five thousand samples. -/
lemma stepC2_windowSamples (n : Nat) : windowSamples (stepC2 n) = 5000 := by
  obtain ⟨h1, _, h3, _⟩ := stepC2_params n
  rw [windowSamples, h1, h3]

/-- One scenario write in explicit arithmetic form. -/
lemma stepC2_buffer_eq (m p : Nat) (hp : p < 10000) :
    (stepC2 (m + 1)).buffer p =
      if (p + 10000 - 1000 * m % 10000) % 10000 < 1000
      then some ((1000 * m + (p + 10000 - 1000 * m % 10000) % 10000 : Nat) : Int)
      else if (p + 10000 - 1000 * m % 10000) % 10000 < 1200 then none
      else (stepC2 m).buffer p := by
  obtain ⟨h1, h2, h3, h4⟩ := stepC2_params m
  have hB : bufferSamples (stepC2 m) = 10000 := stepC2_bufferSamples m
  have hw : whiteOut (stepC2 m) = 200 := stepC2_whiteOut m
  have hk : (blkC2 m).length = 1000 := blkC2_length m
  show (writeBlock (stepC2 m) (blkC2 m)).buffer p = _
  rw [writeBlock_buffer (stepC2 m) (blkC2 m) p (by rw [hk, hw, hB]; omega)
    (by rw [hB]; exact hp)]
  rw [hB, hw, hk, h4]
  by_cases hc : (p + 10000 - 1000 * m % 10000) % 10000 < 1000
  · rw [if_pos hc, if_pos hc]
    exact congrArg some (by rw [blkC2, getD_range_map _ _ _ _ hc])
  · rw [if_neg hc, if_neg hc]

/-- Ring cells below the last write boundary hold their own logical
index: downward pass over the first writes of the scenario. -/
lemma bufC2_low (m : Nat) :
    ∀ p, 2200 ≤ p → p < 1000 * m → m ≤ 10 →
      (stepC2 m).buffer p = some ((p : Nat) : Int) := by
  induction m with
  | zero => intro p h1 h2 h3; omega
  | succ b ih =>
    intro p h1 h2 h3
    have hp10 : p < 10000 := by omega
    rw [stepC2_buffer_eq b p hp10]
    have hbmod : 1000 * b % 10000 = 1000 * b := Nat.mod_eq_of_lt (by omega)
    rw [hbmod]
    by_cases hc : 1000 * b ≤ p
    · have he : p + 10000 - 1000 * b = (p - 1000 * b) + 10000 := by omega
      rw [he, Nat.add_mod_right, Nat.mod_eq_of_lt (by omega)]
      rw [if_pos (by omega)]
      have hv : 1000 * b + (p - 1000 * b) = p := by omega
      rw [hv]
    · have hj : (p + 10000 - 1000 * b) % 10000 = p + 10000 - 1000 * b :=
        Nat.mod_eq_of_lt (by omega)
      rw [hj, if_neg (by omega), if_neg (by omega)]
      exact ih p h1 (by omega) (by omega)

/-- Full ring contents after the twelve scenario writes: cells 0..1999
hold samples 10000..11999, cells 2000..2199 hold the white out sentinel,
cells 2200..9999 hold samples 2200..9999. -/
lemma bufC2 (p : Nat) (hp : p < 10000) :
    (stepC2 12).buffer p =
      if p < 2000 then some ((10000 + p : Nat) : Int)
      else if p < 2200 then none
      else some ((p : Nat) : Int) := by
  have h11 : 1000 * 11 % 10000 = 1000 := by norm_num
  have h10 : 1000 * 10 % 10000 = 0 := by norm_num
  rw [show (12 : Nat) = 11 + 1 from rfl, stepC2_buffer_eq 11 p hp, h11]
  by_cases hc1 : p < 1000
  · have he : p + 10000 - 1000 = p + 9000 := by omega
    rw [he, Nat.mod_eq_of_lt (by omega)]
    rw [if_neg (show ¬ p + 9000 < 1000 by omega),
      if_neg (show ¬ p + 9000 < 1200 by omega)]
    rw [show (11 : Nat) = 10 + 1 from rfl, stepC2_buffer_eq 10 p hp, h10]
    have he2 : p + 10000 - 0 = p + 10000 := by omega
    rw [he2, Nat.add_mod_right, Nat.mod_eq_of_lt hp]
    rw [if_pos (show p < 1000 from hc1)]
    rw [if_pos (show p < 2000 by omega)]
  · have he : p + 10000 - 1000 = (p - 1000) + 10000 := by omega
    rw [he, Nat.add_mod_right, Nat.mod_eq_of_lt (by omega)]
    by_cases hc2 : p < 2200
    · by_cases hc3 : p < 2000
      · rw [if_pos (show p - 1000 < 1000 by omega)]
        rw [if_pos (show p < 2000 from hc3)]
        have hv : 1000 * 11 + (p - 1000) = 10000 + p := by omega
        rw [hv]
      · rw [if_neg (show ¬ p - 1000 < 1000 by omega),
          if_pos (show p - 1000 < 1200 by omega)]
        rw [if_neg (show ¬ p < 2000 from hc3), if_pos (show p < 2200 from hc2)]
    · rw [if_neg (show ¬ p - 1000 < 1000 by omega),
        if_neg (show ¬ p - 1000 < 1200 by omega)]
      rw [show (11 : Nat) = 10 + 1 from rfl, stepC2_buffer_eq 10 p hp, h10]
      have he2 : p + 10000 - 0 = p + 10000 := by omega
      rw [he2, Nat.add_mod_right, Nat.mod_eq_of_lt hp]
      rw [if_neg (show ¬ p < 1000 by omega), if_neg (show ¬ p < 1200 by omega)]
      rw [if_neg (show ¬ p < 2000 by omega), if_neg (show ¬ p < 2200 by omega)]
      exact bufC2_low 10 p (by omega) (by omega) (by omega)

/-- Stride one selects everything. -/
lemma strideSel_one (l : List (Option Int)) : strideSel l 1 = l := by
  induction l with
  | nil => rfl
  | cons x t ih =>
    rw [strideSel_cons 1 (by omega) x t,
      show (1 : Nat) - 1 = 0 from rfl, List.drop_zero, ih]

/-- The split offset of the scenario state. -/
lemma splitIdxC2 : splitIdx (stepC2 12) = 2801 := by
  obtain ⟨_, _, _, h4⟩ := stepC2_params 12
  rw [splitIdx, h4, stepC2_whiteOut 12, stepC2_windowSamples 12]
  decide

/-- The chronological window of the scenario state in plain ring
arithmetic. -/
lemma chronoC2 : chronoWindow (stepC2 12) =
    (List.range 5000).map fun i => (stepC2 12).buffer ((7200 + i) % 10000) := by
  obtain ⟨_, _, _, h4⟩ := stepC2_params 12
  rw [chronoWindow, h4, stepC2_whiteOut 12, stepC2_windowSamples 12,
    stepC2_bufferSamples 12]
  apply List.map_congr_left
  intro i hi
  have hi5 : i < 5000 := List.mem_range.mp hi
  exact congrArg (stepC2 12).buffer (by omega)

/-- The frame the source renders for the scenario state. -/
lemma renderSliceC2 : renderSlice (stepC2 12) 1 = some expectedC2 := by
  have hW : windowSamples (stepC2 12) = 5000 := stepC2_windowSamples 12
  rw [renderSlice_some_rotate (stepC2 12) 1 (by rw [hW]; omega) (by omega)]
  rw [strideSel_one, splitIdxC2, chronoC2]
  refine congrArg some ?_
  apply List.ext_getElem
  · simp [expectedC2]
  · intro j hj1 hj2
    have hj5 : j < 5000 := by
      have := hj2
      rw [expectedC2, List.length_map, List.length_range] at this
      exact this
    simp only [List.getElem_rotate, List.length_map, List.length_range,
      List.getElem_map, List.getElem_range, expectedC2]
    rw [bufC2 _ (by omega)]
    set m := (j + 2801) % 5000 with hm
    set p := (7200 + m) % 10000 with hp
    by_cases hA : j < 1999
    · rw [if_pos (show p < 2000 by omega), if_pos hA]
      exact congrArg some (by omega)
    · by_cases hB2 : j < 2199
      · rw [if_neg (show ¬ p < 2000 by omega), if_pos (show p < 2200 by omega),
          if_neg hA, if_pos hB2]
      · by_cases hC : p < 2000
        · rw [if_pos hC, if_neg hA, if_neg hB2]
          exact congrArg some (by omega)
        · rw [if_neg hC, if_neg (show ¬ p < 2200 by omega), if_neg hA, if_neg hB2]
          exact congrArg some (by omega)

/-- C2 corrected: in the scenario the source does not return samples
7000..11999 in order; it returns the ring window of absolute indices
7200..12199 rotated left by 2801, namely samples 10001..11999, then the
200 white out gaps of absolute indices 12000..12199, then samples
7200..10000. -/
theorem scenario_renders_rotated : renderSlice (stepC2 12) 1 = some expectedC2 :=
  renderSliceC2

/-- C2 as stated fails on the source: the rendered frame differs from
the claimed slice of samples 7000..11999 in order, already at position
zero, where the source emits sample 10001. -/
theorem scenario_not_in_order_cex : renderSlice (stepC2 12) 1 ≠ some claimedC2 := by
  rw [renderSliceC2]
  intro h
  have he : expectedC2 = claimedC2 := Option.some.inj h
  have h0 : expectedC2.getD 0 none = claimedC2.getD 0 none := by rw [he]
  rw [expectedC2, claimedC2, getD_range_map _ _ _ _ (by omega),
    getD_range_map _ _ _ _ (by omega)] at h0
  simp at h0
